import Mathlib

/-!
Shallow embedding of the Arduino-extension patcher scripts
(`scripts/patch-provider copy.py` and `patch_provider.py`).

File contents are modelled as `List Char`; Python's substring test
(`pat in s`) is `containsSub`, and Python's `str.replace` (replace all
non-overlapping occurrences, scanning left to right) is `pyReplace`.
The filesystem environment a run observes (whether the candidate
extension roots exist and which directory names they hold, whether the
target file exists, the outcome of the read, whether the write would
succeed) is an explicit `Env` record, and `main` is a pure function from
`Env` to an exit code, a report tag, and the optionally written content.
-/

namespace Patcher

/-- Python `pat in s` on character lists: does `pat` occur as a
contiguous substring of `s`? -/
def containsSub (pat : List Char) : List Char → Bool
  | [] => pat.isPrefixOf []
  | c :: cs => pat.isPrefixOf (c :: cs) || containsSub pat cs

/-- Python `s.replace(old, new)` on character lists, for a nonempty
`old` pattern (every use in the scripts has a nonempty pattern): scan
left to right; at each position, if `old` is a prefix, emit `new` and
skip past the matched occurrence, otherwise keep the character. -/
def pyReplace (old new : List Char) : List Char → List Char
  | [] => []
  | c :: cs =>
    if old.isPrefixOf (c :: cs) then
      new ++ pyReplace old new (cs.drop (old.length - 1))
    else
      c :: pyReplace old new cs
termination_by s => s.length
decreasing_by
  · simp only [List.length_drop, List.length_cons]
    omega
  · simp

/-- Pattern 1 of `main`: the original unpatched line (older extension
versions). -/
def old_line_v1 : List Char :=
  ("var url = \"$\x7b(yield vscode.env.asExternalUri(this._webserver.getEndpointUri(type))).toString()\x7d?\" +").data

/-- Pattern 2 of `main`: the alternative unpatched line (newer extension
versions with different query string handling). -/
def old_line_v2 : List Char :=
  ("var url = \"$\x7b(yield vscode.env.asExternalUri(this._webserver.getEndpointUri(type))).toString()\x7d\"; url += (url.indexOf(\"?\") === -1 ? \"?\" : String.fromCharCode(38)) +").data

/-- Patched replacement for pattern 1. -/
def new_line_v1 : List Char :=
  ("var baseUrl = \"$\x7b(yield vscode.env.asExternalUri(this._webserver.getEndpointUri(\"\"))).toString()\x7d\"; if (baseUrl.slice(-1) !== \"/\") baseUrl += \"/\"; var url = baseUrl + \"$\x7btype\x7d?\" +").data

/-- Patched replacement for pattern 2. -/
def new_line_v2 : List Char :=
  ("var baseUrl = \"$\x7b(yield vscode.env.asExternalUri(this._webserver.getEndpointUri(\"\"))).toString()\x7d\"; if (baseUrl.slice(-1) !== \"/\") baseUrl += \"/\"; var url = baseUrl + \"$\x7btype\x7d\"; url += (url.indexOf(\"?\") === -1 ? \"?\" : String.fromCharCode(38)) +").data

/-- The already-patched marker literal tested by
`if '...' in content` in `main`. -/
def marker : List Char :=
  ("var baseUrl = \"$\x7b(yield vscode.env.asExternalUri(this._webserver.getEndpointUri(\"\"))).toString()\x7d\"").data

/-- Directory-name prefix of the glob pattern
`vscode-arduino.vscode-arduino-community*` used by
`find_extension_path`. -/
def extPrefix : List Char :=
  ("vscode-arduino.vscode-arduino-community").data

/-- Filesystem state observed by `find_extension_path`: for each of the
two candidate extension roots (`~/.vscode-remote/extensions` first, then
`~/.vscode-server/extensions`), whether the directory exists and the
directory names it contains, in the order `glob.glob` enumerates them. -/
structure ExtFS where
  remoteExists : Bool
  remoteDirs : List (List Char)
  serverExists : Bool
  serverDirs : List (List Char)

/-- Loop body of `find_extension_path` for one candidate root: when the
root directory exists, glob for names starting with `extPrefix` and
return the first match (`matches[0]`), if any. -/
def searchRoot (present : Bool) (names : List (List Char)) : Option (List Char) :=
  if present then (names.filter (fun n => extPrefix.isPrefixOf n)).head? else none

/-- The script's `find_extension_path`: try the remote-extensions root,
then the server-extensions root, returning the first glob match found. -/
def find_extension_path (fs : ExtFS) : Option (List Char) :=
  match searchRoot fs.remoteExists fs.remoteDirs with
  | some m => some m
  | none => searchRoot fs.serverExists fs.serverDirs

/-- The first matching `elif`-chain of `main`: try pattern v1, then
pattern v2; `some` holds the replaced content (`new_content`), `none`
means no pattern matched (`new_content` stays `None`). -/
def tryPatch (content : List Char) : Option (List Char) :=
  if containsSub old_line_v1 content then
    some (pyReplace old_line_v1 new_line_v1 content)
  else if containsSub old_line_v2 content then
    some (pyReplace old_line_v2 new_line_v2 content)
  else
    none

/-- Pure text transformation one run of `main` applies to the target
file's content: unchanged when the marker is already present or no
pattern matches, otherwise the first matching pattern's replacement. -/
def patchOnce (content : List Char) : List Char :=
  if containsSub marker content then content
  else
    match tryPatch content with
    | some n => n
    | none => content

/-- Environment one run of `main` observes: the extension-root
filesystem state, whether the target file exists, the outcome of
reading it (`none` models a raised I/O error), and whether the write
would succeed. -/
structure Env where
  fs : ExtFS
  fileExists : Bool
  readResult : Option (List Char)
  writeOk : Bool

/-- Which status line a run of `main` reports. -/
inductive Report where
  | extNotFound
  | fileNotFound
  | readError
  | alreadyPatched
  | patchedOk
  | writeError
  | patternMismatch
deriving DecidableEq

/-- Observable outcome of a run of `main`: the process exit code, the
reported status, and the content written back, when a write happened. -/
structure RunResult where
  exitCode : Nat
  report : Report
  written : Option (List Char)
deriving DecidableEq

/-- The script's `main`, as a pure function of the observed
environment, following the source's control flow: locate the extension
(exit 0 if absent), check the target file (exit 0 if absent), read
(exit 1 on error), stop on the marker (exit 0), try the patterns
(exit 1 on mismatch), write (exit 2 on success, exit 1 on error). -/
def main (e : Env) : RunResult :=
  match find_extension_path e.fs with
  | none => ⟨0, Report.extNotFound, none⟩
  | some _ =>
    if e.fileExists then
      match e.readResult with
      | none => ⟨1, Report.readError, none⟩
      | some content =>
        if containsSub marker content then ⟨0, Report.alreadyPatched, none⟩
        else
          match tryPatch content with
          | some newContent =>
            if e.writeOk then ⟨2, Report.patchedOk, some newContent⟩
            else ⟨1, Report.writeError, none⟩
          | none => ⟨1, Report.patternMismatch, none⟩
    else ⟨0, Report.fileNotFound, none⟩

/-- Content of the target file after a run, given its original
content: the written content when a write happened, otherwise the
original. -/
def finalContent (e : Env) (orig : List Char) : List Char :=
  ((main e).written).getD orig

/-- Old literal of the minimal script `patch_provider.py`. -/
def old_line : List Char :=
  ("var url = \"$\x7b(yield vscode.env.asExternalUri(this._webserver.getEndpointUri(type))).toString()\x7d\"; url += (url.indexOf(\"?\") === -1 ? \"?\" : String.fromCharCode(38)) +").data

/-- New literal of the minimal script `patch_provider.py`. -/
def new_line : List Char :=
  ("var baseUrl = \"$\x7b(yield vscode.env.asExternalUri(this._webserver.getEndpointUri(\"\"))).toString()\x7d\"; if (baseUrl.slice(-1) !== \"/\") baseUrl += \"/\"; var url = baseUrl + \"$\x7btype\x7d\"; url += (url.indexOf(\"?\") === -1 ? \"?\" : String.fromCharCode(38)) +").data

/-- Extension directory name appearing in the minimal script's
hard-coded path, used below as a concrete test fixture. -/
def sampleDirName : List Char :=
  ("vscode-arduino.vscode-arduino-community-0.7.2-linux-x64").data

/-- Concrete extension-root state used as a test fixture: the
remote-extensions root exists and holds the sample directory; the
server-extensions root is absent. -/
def sampleFS : ExtFS :=
  ⟨true, [sampleDirName], false, []⟩

/-!
Helper lemmas about the substring test and the replacement scan.
-/

/-- Specification of `containsSub`: it decides the infix relation. -/
theorem containsSub_iff (pat s : List Char) : containsSub pat s = true ↔ pat <:+: s := by
  induction s with
  | nil =>
    simp [containsSub, List.isPrefixOf_iff_prefix, List.infix_nil, List.prefix_nil]
  | cons c cs ih =>
    simp [containsSub, List.isPrefixOf_iff_prefix, ih, List.infix_cons_iff]

/-- Negative form of `containsSub_iff`. -/
theorem containsSub_eq_false_iff (pat s : List Char) :
    containsSub pat s = false ↔ ¬ pat <:+: s := by
  rw [← containsSub_iff]
  cases containsSub pat s <;> simp

/-- Replacing in the empty content is the empty content. -/
theorem pyReplace_nil (old new : List Char) : pyReplace old new [] = [] := by
  simp [pyReplace]

/-- One scan step of `pyReplace` on a nonempty content. -/
theorem pyReplace_cons (old new : List Char) (c : Char) (cs : List Char) :
    pyReplace old new (c :: cs) =
      if old.isPrefixOf (c :: cs) then
        new ++ pyReplace old new (cs.drop (old.length - 1))
      else
        c :: pyReplace old new cs := by
  rw [pyReplace]

/-- Content without an occurrence of the pattern is left unchanged. -/
theorem pyReplace_of_not_infix {old : List Char} (new : List Char) {s : List Char}
    (h : ¬ old <:+: s) : pyReplace old new s = s := by
  induction s with
  | nil => exact pyReplace_nil old new
  | cons c cs ih =>
    rw [pyReplace_cons]
    have hp : ¬ old.isPrefixOf (c :: cs) = true := by
      rw [List.isPrefixOf_iff_prefix]
      exact fun hpre => h hpre.isInfix
    rw [if_neg hp, ih (fun hin => h (List.infix_cons hin))]

/-- An occurrence of the pattern at the head of the content is replaced
and the scan continues after it. -/
theorem pyReplace_append_left (old new s : List Char) (h : old ≠ []) :
    pyReplace old new (old ++ s) = new ++ pyReplace old new s := by
  match old, h with
  | o :: os, _ =>
    rw [List.cons_append, pyReplace_cons]
    have hpre : (o :: os).isPrefixOf (o :: (os ++ s)) = true := by
      rw [List.isPrefixOf_iff_prefix]
      exact ⟨s, by simp⟩
    rw [if_pos hpre]
    have hd : (o :: os).length - 1 = os.length := by simp
    rw [hd, List.drop_left]

/-- When the pattern occurs in the content, the replacement occurs in
the result of the scan. -/
theorem infix_pyReplace (old new : List Char) (hne : old ≠ []) :
    ∀ s : List Char, old <:+: s → new <:+: pyReplace old new s := by
  intro s
  induction s with
  | nil =>
    intro h
    exact absurd (List.infix_nil.mp h) hne
  | cons c cs ih =>
    intro h
    rw [pyReplace_cons]
    by_cases hp : old.isPrefixOf (c :: cs) = true
    · rw [if_pos hp]
      exact (List.prefix_append new _).isInfix
    · rw [if_neg hp]
      have hin : old <:+: cs := by
        rcases List.infix_cons_iff.mp h with hpre | hin
        · exact absurd (List.isPrefixOf_iff_prefix.mpr hpre) hp
        · exact hin
      exact List.infix_cons (ih hin)

/-- A pattern that is a prefix of `(A ++ o) ++ post` with `A` nonempty
already occurs inside `A ++ o.dropLast`. -/
theorem prefix_extract {o A post : List Char} (ho : o ≠ []) (hA : 1 ≤ A.length)
    (hp : o <+: (A ++ o) ++ post) : o <:+: A ++ o.dropLast := by
  have holen : 1 ≤ o.length := List.length_pos.mpr ho
  have h1 : o <+: List.take (A.length + (o.length - 1)) ((A ++ o) ++ post) :=
    List.prefix_take_iff.mpr ⟨hp, by omega⟩
  have h2 : List.take (A.length + (o.length - 1)) ((A ++ o) ++ post)
      = A ++ o.dropLast := by
    rw [List.take_append_of_le_length (by simp only [List.length_append]; omega),
        List.take_append_eq_append_take,
        List.take_of_length_le (by omega)]
    have hn : A.length + (o.length - 1) - A.length = o.length - 1 := by omega
    rw [hn, ← List.dropLast_eq_take]
  rw [h2] at h1
  exact h1.isInfix

/-- Replacing a marked unique occurrence: when the pattern does not
occur anywhere overlapping the prefix part, the scan keeps the prefix,
replaces the marked occurrence, and continues on the suffix part. -/
theorem pyReplace_embed (old new : List Char) (hne : old ≠ []) :
    ∀ pre post : List Char, ¬ old <:+: pre ++ old.dropLast →
      pyReplace old new ((pre ++ old) ++ post) = (pre ++ new) ++ pyReplace old new post := by
  intro pre
  induction pre with
  | nil =>
    intro post _
    simp only [List.nil_append]
    exact pyReplace_append_left old new post hne
  | cons a pre' ih =>
    intro post hpre
    have hassoc : ((a :: pre') ++ old) ++ post = a :: ((pre' ++ old) ++ post) := by
      simp
    rw [hassoc, pyReplace_cons]
    have hnotpref : ¬ old.isPrefixOf (a :: ((pre' ++ old) ++ post)) = true := by
      rw [List.isPrefixOf_iff_prefix]
      intro hp
      apply hpre
      have hp' : old <+: ((a :: pre') ++ old) ++ post := by
        rw [hassoc]
        exact hp
      exact prefix_extract hne (by simp) hp'
    rw [if_neg hnotpref]
    have hpre' : ¬ old <:+: pre' ++ old.dropLast := by
      intro hin
      exact hpre (List.infix_cons hin)
    rw [ih post hpre']
    simp

/-!
Facts about the concrete literals, and branch lemmas for the patch
steps.
-/

/-- Pattern v1 is a nonempty literal. -/
theorem old_line_v1_ne_nil : old_line_v1 ≠ [] := by decide

/-- Pattern v2 is a nonempty literal. -/
theorem old_line_v2_ne_nil : old_line_v2 ≠ [] := by decide

/-- The marker literal is a prefix of the v1 replacement literal. -/
theorem marker_prefix_new_line_v1 : marker <+: new_line_v1 :=
  List.isPrefixOf_iff_prefix.mp (by decide)

/-- The marker literal is a prefix of the v2 replacement literal. -/
theorem marker_prefix_new_line_v2 : marker <+: new_line_v2 :=
  List.isPrefixOf_iff_prefix.mp (by decide)

/-- The marker literal does not occur in the v1 legacy literal. -/
theorem marker_not_infix_old_line_v1 : ¬ marker <:+: old_line_v1 :=
  (containsSub_eq_false_iff marker old_line_v1).mp (by decide)

/-- The marker literal does not occur in the v2 legacy literal. -/
theorem marker_not_infix_old_line_v2 : ¬ marker <:+: old_line_v2 :=
  (containsSub_eq_false_iff marker old_line_v2).mp (by decide)

/-- When pattern v1 occurs, `tryPatch` applies the v1 substitution. -/
theorem tryPatch_of_v1 {c : List Char} (h1 : old_line_v1 <:+: c) :
    tryPatch c = some (pyReplace old_line_v1 new_line_v1 c) := by
  unfold tryPatch
  rw [if_pos ((containsSub_iff old_line_v1 c).mpr h1)]

/-- When pattern v1 is absent and pattern v2 occurs, `tryPatch` applies
the v2 substitution. -/
theorem tryPatch_of_v2 {c : List Char} (h1 : ¬ old_line_v1 <:+: c)
    (h2 : old_line_v2 <:+: c) :
    tryPatch c = some (pyReplace old_line_v2 new_line_v2 c) := by
  unfold tryPatch
  rw [if_neg (fun hb => h1 ((containsSub_iff old_line_v1 c).mp hb)),
      if_pos ((containsSub_iff old_line_v2 c).mpr h2)]

/-- When neither pattern occurs, `tryPatch` yields no content. -/
theorem tryPatch_of_none {c : List Char} (h1 : ¬ old_line_v1 <:+: c)
    (h2 : ¬ old_line_v2 <:+: c) : tryPatch c = none := by
  unfold tryPatch
  rw [if_neg (fun hb => h1 ((containsSub_iff old_line_v1 c).mp hb)),
      if_neg (fun hb => h2 ((containsSub_iff old_line_v2 c).mp hb))]

/-- Content produced by `tryPatch` always carries the marker. -/
theorem tryPatch_marker {c n : List Char} (h : tryPatch c = some n) :
    marker <:+: n := by
  by_cases h1 : old_line_v1 <:+: c
  · rw [tryPatch_of_v1 h1] at h
    cases h
    exact marker_prefix_new_line_v1.isInfix.trans
      (infix_pyReplace old_line_v1 new_line_v1 old_line_v1_ne_nil c h1)
  · by_cases h2 : old_line_v2 <:+: c
    · rw [tryPatch_of_v2 h1 h2] at h
      cases h
      exact marker_prefix_new_line_v2.isInfix.trans
        (infix_pyReplace old_line_v2 new_line_v2 old_line_v2_ne_nil c h2)
    · rw [tryPatch_of_none h1 h2] at h
      cases h

/-- Marked content is returned unchanged by `patchOnce`. -/
theorem patchOnce_of_marker {c : List Char} (h : marker <:+: c) :
    patchOnce c = c := by
  unfold patchOnce
  rw [if_pos ((containsSub_iff marker c).mpr h)]

/-- Unmarked content is transformed by `patchOnce` according to
`tryPatch`. -/
theorem patchOnce_of_not_marker {c : List Char} (h : ¬ marker <:+: c) :
    patchOnce c = ((tryPatch c).getD c) := by
  unfold patchOnce
  rw [if_neg (fun hb => h ((containsSub_iff marker c).mp hb))]
  cases tryPatch c <;> rfl

/-- Evaluation of `main` once the extension is located, the target file
exists, and the read succeeded. -/
theorem main_some {fs : ExtFS} {p : List Char}
    (hf : find_extension_path fs = some p) (w : Bool) (c : List Char) :
    main ⟨fs, true, some c, w⟩ =
      (if containsSub marker c then ⟨0, Report.alreadyPatched, none⟩
      else
        match tryPatch c with
        | some n =>
          if w then ⟨2, Report.patchedOk, some n⟩
          else ⟨1, Report.writeError, none⟩
        | none => ⟨1, Report.patternMismatch, none⟩) := by
  unfold main
  rw [hf]
  simp

/-!
Claim theorems.
-/

/-- C3: for every content containing the v1 legacy literal, and for
every content containing the v2 legacy literal and not the marker,
applying the patch transformation once yields content containing the
already-patched marker substring. -/
theorem patchOnce_contains_marker (c : List Char) :
    (old_line_v1 <:+: c → marker <:+: patchOnce c) ∧
    (old_line_v2 <:+: c → ¬ marker <:+: c → marker <:+: patchOnce c) := by
  constructor
  · intro h1
    by_cases hm : marker <:+: c
    · rw [patchOnce_of_marker hm]
      exact hm
    · have hmk := tryPatch_marker (tryPatch_of_v1 h1)
      rw [patchOnce_of_not_marker hm, tryPatch_of_v1 h1]
      exact hmk
  · intro h2 hm
    by_cases h1 : old_line_v1 <:+: c
    · have hmk := tryPatch_marker (tryPatch_of_v1 h1)
      rw [patchOnce_of_not_marker hm, tryPatch_of_v1 h1]
      exact hmk
    · have hmk := tryPatch_marker (tryPatch_of_v2 h1 h2)
      rw [patchOnce_of_not_marker hm, tryPatch_of_v2 h1 h2]
      exact hmk

/-- C3 witness: concrete contents equal to each legacy literal are
marked after one application. -/
theorem patchOnce_contains_marker_witness :
    marker <:+: patchOnce old_line_v1 ∧ marker <:+: patchOnce old_line_v2 :=
  ⟨(patchOnce_contains_marker old_line_v1).1 (List.infix_refl old_line_v1),
   (patchOnce_contains_marker old_line_v2).2 (List.infix_refl old_line_v2)
     marker_not_infix_old_line_v2⟩

/-- C4: the match step tries the v1 literal before the v2 literal; the
first literal that occurs is replaced everywhere (the left-to-right
replace-all scan `pyReplace`), later rules are not tried, and with no
occurrence of either literal no replacement is produced. -/
theorem tryPatch_order (c : List Char) :
    (old_line_v1 <:+: c → tryPatch c = some (pyReplace old_line_v1 new_line_v1 c)) ∧
    (¬ old_line_v1 <:+: c → old_line_v2 <:+: c →
      tryPatch c = some (pyReplace old_line_v2 new_line_v2 c)) ∧
    (¬ old_line_v1 <:+: c → ¬ old_line_v2 <:+: c → tryPatch c = none) :=
  ⟨tryPatch_of_v1, tryPatch_of_v2, tryPatch_of_none⟩

/-- C4 witness: on content holding both legacy literals, the v1 rule is
the one applied. -/
theorem tryPatch_order_witness :
    tryPatch (old_line_v1 ++ old_line_v2) =
      some (pyReplace old_line_v1 new_line_v1 (old_line_v1 ++ old_line_v2)) :=
  (tryPatch_order (old_line_v1 ++ old_line_v2)).1
    (List.prefix_append old_line_v1 old_line_v2).isInfix

/-- C6: when the read content holds neither legacy literal nor the
marker, the run writes nothing, the file content is unchanged, and the
run reports a pattern mismatch with exit code 1. -/
theorem main_pattern_mismatch (e : Env) (c p : List Char)
    (hf : find_extension_path e.fs = some p) (hfile : e.fileExists = true)
    (hread : e.readResult = some c)
    (h1 : ¬ old_line_v1 <:+: c) (h2 : ¬ old_line_v2 <:+: c)
    (hm : ¬ marker <:+: c) :
    (main e).written = none ∧ finalContent e c = c ∧
    (main e).exitCode = 1 ∧ (main e).report = Report.patternMismatch := by
  obtain ⟨fs, fe, rr, w⟩ := e
  simp only at hf hfile hread
  subst hfile hread
  have hms : containsSub marker c = false := (containsSub_eq_false_iff marker c).mpr hm
  rw [finalContent, main_some hf w c, hms, tryPatch_of_none h1 h2]
  simp

/-- C6 witness: empty content is left unchanged and reported as a
pattern mismatch. -/
theorem main_pattern_mismatch_witness :
    (main ⟨sampleFS, true, some [], true⟩).written = none ∧
    finalContent ⟨sampleFS, true, some [], true⟩ [] = [] ∧
    (main ⟨sampleFS, true, some [], true⟩).exitCode = 1 ∧
    (main ⟨sampleFS, true, some [], true⟩).report = Report.patternMismatch :=
  main_pattern_mismatch ⟨sampleFS, true, some [], true⟩ [] sampleDirName
    (by decide) rfl rfl (by decide) (by decide) (by decide)

/-- C9: the marker literal is a substring of both replacement literals
and of neither legacy literal. -/
theorem marker_unique_to_replacement :
    marker <:+: new_line_v1 ∧ marker <:+: new_line_v2 ∧
    ¬ marker <:+: old_line_v1 ∧ ¬ marker <:+: old_line_v2 :=
  ⟨marker_prefix_new_line_v1.isInfix, marker_prefix_new_line_v2.isInfix,
   marker_not_infix_old_line_v1, marker_not_infix_old_line_v2⟩

/-- C10: the minimal script's literals are the full script's v2
literals, so on any content containing the v2 legacy literal both
scripts apply the same text transformation. -/
theorem minimal_script_matches_v2 :
    old_line = old_line_v2 ∧ new_line = new_line_v2 ∧
    ∀ c : List Char, old_line <:+: c →
      pyReplace old_line new_line c = pyReplace old_line_v2 new_line_v2 c :=
  ⟨rfl, rfl, fun _ _ => rfl⟩

/-- C10 witness: the two substitutions agree on content equal to the
v2 legacy line. -/
theorem minimal_script_matches_v2_witness :
    pyReplace old_line new_line old_line_v2 =
      pyReplace old_line_v2 new_line_v2 old_line_v2 :=
  minimal_script_matches_v2.2.2 old_line_v2 (by decide)

/-- Any name returned by one root's search carries the fixed prefix. -/
theorem searchRoot_prefix {present : Bool} {names : List (List Char)} {m : List Char}
    (h : searchRoot present names = some m) : extPrefix <+: m := by
  unfold searchRoot at h
  split at h
  · have hmem : m ∈ names.filter (fun n => extPrefix.isPrefixOf n) :=
      List.mem_of_mem_head? h
    exact List.isPrefixOf_iff_prefix.mp (List.of_mem_filter hmem)
  · exact absurd h (by simp)

/-- C7: locating the extension prefers the remote-extensions root and
returns its first glob match when there is one; when the remote root
yields no match (absent or without matching names), the server root's
first glob match is returned; every returned name carries the fixed
prefix; nothing is found exactly when no present root holds a matching
name; and a run that finds nothing exits 0 without writing. -/
theorem find_extension_path_spec :
    (∀ (fs : ExtFS) (m : List Char) (rest : List (List Char)),
      fs.remoteExists = true →
      fs.remoteDirs.filter (fun n => extPrefix.isPrefixOf n) = m :: rest →
      find_extension_path fs = some m) ∧
    (∀ (fs : ExtFS) (m : List Char) (rest : List (List Char)),
      (fs.remoteExists = true →
        fs.remoteDirs.filter (fun n => extPrefix.isPrefixOf n) = []) →
      fs.serverExists = true →
      fs.serverDirs.filter (fun n => extPrefix.isPrefixOf n) = m :: rest →
      find_extension_path fs = some m) ∧
    (∀ (fs : ExtFS) (m : List Char),
      find_extension_path fs = some m → extPrefix <+: m) ∧
    (∀ fs : ExtFS, find_extension_path fs = none ↔
      ((fs.remoteExists = true →
         fs.remoteDirs.filter (fun n => extPrefix.isPrefixOf n) = []) ∧
       (fs.serverExists = true →
         fs.serverDirs.filter (fun n => extPrefix.isPrefixOf n) = []))) ∧
    (∀ e : Env, find_extension_path e.fs = none →
      (main e).exitCode = 0 ∧ (main e).written = none ∧
      (main e).report = Report.extNotFound) := by
  refine ⟨?_, ?_, ?_, ?_, ?_⟩
  · intro fs m rest hre hfil
    simp [find_extension_path, searchRoot, hre, hfil]
  · intro fs m rest hrem hse hfil
    obtain ⟨re, rd, se, sd⟩ := fs
    simp only at hrem hse hfil
    subst hse
    cases re with
    | false => simp [find_extension_path, searchRoot, hfil]
    | true => simp [find_extension_path, searchRoot, hrem rfl, hfil]
  · intro fs m h
    unfold find_extension_path at h
    cases hr : searchRoot fs.remoteExists fs.remoteDirs with
    | some a =>
      rw [hr] at h
      cases h
      exact searchRoot_prefix hr
    | none =>
      rw [hr] at h
      exact searchRoot_prefix h
  · intro fs
    obtain ⟨re, rd, se, sd⟩ := fs
    simp only [find_extension_path, searchRoot]
    cases hr : (rd.filter (fun n => extPrefix.isPrefixOf n)).head? <;>
      cases hs : (sd.filter (fun n => extPrefix.isPrefixOf n)).head? <;>
        cases re <;> cases se <;>
          simp [hr, hs, ← List.head?_eq_none_iff]
  · intro e h
    obtain ⟨fs, fe, rr, w⟩ := e
    simp only at h
    simp [main, h]

/-- C7 witness: the sample state yields its single match from the
remote root; with an empty remote root the same name is found in the
server root; and a state with no roots leads to exit code 0. -/
theorem find_extension_path_spec_witness :
    find_extension_path sampleFS = some sampleDirName ∧
    find_extension_path ⟨true, [], true, [sampleDirName]⟩ = some sampleDirName ∧
    (main ⟨⟨false, [], false, []⟩, true, some [], true⟩).exitCode = 0 :=
  ⟨find_extension_path_spec.1 sampleFS sampleDirName [] rfl (by decide),
   find_extension_path_spec.2.1 ⟨true, [], true, [sampleDirName]⟩ sampleDirName []
     (fun _ => rfl) rfl (by decide),
   (find_extension_path_spec.2.2.2.2 ⟨⟨false, [], false, []⟩, true, some [], true⟩ rfl).1⟩

/-- C8 counterexample: both old literals occur in the content formed by
concatenating the two legacy lines, so the two rules are not mutually
exclusive over arbitrary file contents. -/
theorem both_old_literals_occur :
    old_line_v1 <:+: old_line_v1 ++ old_line_v2 ∧
    old_line_v2 <:+: old_line_v1 ++ old_line_v2 :=
  ⟨(List.prefix_append old_line_v1 old_line_v2).isInfix,
   (List.suffix_append old_line_v1 old_line_v2).isInfix⟩

/-- C8 amended: the two old literals are mutually exclusive as
patterns: they are distinct and neither occurs as a substring of the
other, although a single content can contain both. -/
theorem old_literals_mutually_exclusive :
    old_line_v1 ≠ old_line_v2 ∧
    ¬ old_line_v1 <:+: old_line_v2 ∧ ¬ old_line_v2 <:+: old_line_v1 := by
  refine ⟨by decide, (containsSub_eq_false_iff _ _).mp (by decide), ?_⟩
  intro h
  have := h.length_le
  simp [old_line_v1, old_line_v2] at this

/-- C2 counterexample: on empty content the transformation is
idempotent, but the second run does not find the marker and reports a
pattern mismatch rather than "already patched". -/
theorem second_run_not_always_marked :
    patchOnce (patchOnce []) = patchOnce [] ∧
    ¬ marker <:+: patchOnce [] ∧
    (main ⟨sampleFS, true, some (patchOnce []), true⟩).report
      = Report.patternMismatch ∧
    Report.patternMismatch ≠ Report.alreadyPatched := by
  refine ⟨rfl, ?_, rfl, by decide⟩
  intro h
  rw [show patchOnce [] = [] from rfl] at h
  exact absurd (List.infix_nil.mp h) (by decide)

/-- C2 amended: applying the transformation twice yields the same
content as applying it once, for every content; and whenever the first
run found the marker or matched a rule, the second run finds the
marker, reports "already patched", exits 0, and performs no write. -/
theorem patcher_idempotent :
    (∀ c : List Char, patchOnce (patchOnce c) = patchOnce c) ∧
    (∀ (e : Env) (c p : List Char),
      find_extension_path e.fs = some p → e.fileExists = true →
      e.readResult = some (patchOnce c) →
      (marker <:+: c ∨ tryPatch c ≠ none) →
      marker <:+: patchOnce c ∧
      main e = ⟨0, Report.alreadyPatched, none⟩) := by
  have hmark : ∀ c : List Char, (marker <:+: c ∨ tryPatch c ≠ none) →
      marker <:+: patchOnce c := by
    intro c h
    by_cases hm : marker <:+: c
    · rw [patchOnce_of_marker hm]
      exact hm
    · rcases h with h | h
      · exact absurd h hm
      · cases htp : tryPatch c with
        | none => exact absurd htp h
        | some n =>
          rw [patchOnce_of_not_marker hm, htp]
          exact tryPatch_marker htp
  constructor
  · intro c
    by_cases hm : marker <:+: c
    · rw [patchOnce_of_marker hm]
      exact patchOnce_of_marker hm
    · cases htp : tryPatch c with
      | none =>
        have hc : patchOnce c = c := by
          rw [patchOnce_of_not_marker hm, htp]
          rfl
        rw [hc, hc]
      | some n =>
        have hmn : marker <:+: patchOnce c := hmark c (Or.inr (by rw [htp]; simp))
        rw [patchOnce_of_marker hmn]
  · intro e c p hf hfile hread h
    refine ⟨hmark c h, ?_⟩
    obtain ⟨fs, fe, rr, w⟩ := e
    simp only at hf hfile hread
    subst hfile hread
    rw [main_some hf w (patchOnce c),
        if_pos ((containsSub_iff marker (patchOnce c)).mpr (hmark c h))]

/-- C2 witness: after patching content equal to the v1 legacy line, the
second run finds the marker and reports "already patched". -/
theorem patcher_idempotent_witness :
    marker <:+: patchOnce old_line_v1 ∧
    main ⟨sampleFS, true, some (patchOnce old_line_v1), true⟩
      = ⟨0, Report.alreadyPatched, none⟩ :=
  patcher_idempotent.2 ⟨sampleFS, true, some (patchOnce old_line_v1), true⟩
    old_line_v1 sampleDirName (by decide) rfl rfl (Or.inr (by decide))

/-- C5 counterexample: with boilerplate prefix equal to the v1 legacy
line itself (marker and v2 line absent), the run replaces both
occurrences, so the output differs from the boilerplate with only the
embedded line replaced. -/
theorem patch_replaces_all_occurrences :
    ¬ marker <:+: old_line_v1 ++ old_line_v1 ∧
    ¬ old_line_v2 <:+: old_line_v1 ++ old_line_v1 ∧
    patchOnce (old_line_v1 ++ old_line_v1) = new_line_v1 ++ new_line_v1 ∧
    new_line_v1 ++ new_line_v1 ≠ old_line_v1 ++ new_line_v1 := by
  have hm : ¬ marker <:+: old_line_v1 ++ old_line_v1 :=
    (containsSub_eq_false_iff _ _).mp (by decide)
  have h1 : old_line_v1 <:+: old_line_v1 ++ old_line_v1 :=
    (List.prefix_append old_line_v1 old_line_v1).isInfix
  have hself : pyReplace old_line_v1 new_line_v1 old_line_v1 = new_line_v1 := by
    have h := pyReplace_append_left old_line_v1 new_line_v1 [] old_line_v1_ne_nil
    simpa [pyReplace_nil] using h
  refine ⟨hm, (containsSub_eq_false_iff _ _).mp (by decide), ?_, ?_⟩
  · rw [patchOnce_of_not_marker hm, tryPatch_of_v1 h1, Option.getD_some,
        pyReplace_append_left old_line_v1 new_line_v1 old_line_v1 old_line_v1_ne_nil,
        hself]
  · intro h
    have := List.append_cancel_right h
    exact absurd this (by decide)

/-- C5 amended: when the legacy line's only occurrence in the content
is the embedded one (no occurrence starting in the boilerplate prefix,
none inside the boilerplate suffix) and the marker is absent (for the
v2 case, the v1 line absent as well), the run writes exactly the
boilerplate with the embedded line replaced and exits 2. -/
theorem main_single_occurrence_patch (e : Env) (pre post p : List Char)
    (hf : find_extension_path e.fs = some p) (hfile : e.fileExists = true)
    (hw : e.writeOk = true) :
    (e.readResult = some ((pre ++ old_line_v1) ++ post) →
      ¬ marker <:+: (pre ++ old_line_v1) ++ post →
      ¬ old_line_v2 <:+: (pre ++ old_line_v1) ++ post →
      ¬ old_line_v1 <:+: pre ++ old_line_v1.dropLast →
      ¬ old_line_v1 <:+: post →
      main e = ⟨2, Report.patchedOk, some ((pre ++ new_line_v1) ++ post)⟩) ∧
    (e.readResult = some ((pre ++ old_line_v2) ++ post) →
      ¬ marker <:+: (pre ++ old_line_v2) ++ post →
      ¬ old_line_v1 <:+: (pre ++ old_line_v2) ++ post →
      ¬ old_line_v2 <:+: pre ++ old_line_v2.dropLast →
      ¬ old_line_v2 <:+: post →
      main e = ⟨2, Report.patchedOk, some ((pre ++ new_line_v2) ++ post)⟩) := by
  obtain ⟨fs, fe, rr, w⟩ := e
  simp only at hf hfile hw
  subst hfile hw
  constructor
  · intro hread hm _ hpre hpost
    simp only at hread
    subst hread
    have h1 : old_line_v1 <:+: (pre ++ old_line_v1) ++ post :=
      List.infix_append pre old_line_v1 post
    rw [main_some hf true ((pre ++ old_line_v1) ++ post),
        if_neg (fun hb => hm ((containsSub_iff _ _).mp hb)),
        tryPatch_of_v1 h1,
        pyReplace_embed old_line_v1 new_line_v1 old_line_v1_ne_nil pre post hpre,
        pyReplace_of_not_infix new_line_v1 hpost]
    rfl
  · intro hread hm h1 hpre hpost
    simp only at hread
    subst hread
    have h2 : old_line_v2 <:+: (pre ++ old_line_v2) ++ post :=
      List.infix_append pre old_line_v2 post
    rw [main_some hf true ((pre ++ old_line_v2) ++ post),
        if_neg (fun hb => hm ((containsSub_iff _ _).mp hb)),
        tryPatch_of_v2 h1 h2,
        pyReplace_embed old_line_v2 new_line_v2 old_line_v2_ne_nil pre post hpre,
        pyReplace_of_not_infix new_line_v2 hpost]
    rfl

/-- C5 witness: content equal to the v1 legacy line alone is patched to
the v1 replacement alone with exit code 2. -/
theorem main_single_occurrence_patch_witness :
    main ⟨sampleFS, true, some (([] ++ old_line_v1) ++ []), true⟩
      = ⟨2, Report.patchedOk, some (([] ++ new_line_v1) ++ [])⟩ :=
  (main_single_occurrence_patch ⟨sampleFS, true, some (([] ++ old_line_v1) ++ []), true⟩
    [] [] sampleDirName (by decide) rfl rfl).1 rfl
    ((containsSub_eq_false_iff _ _).mp (by decide))
    ((containsSub_eq_false_iff _ _).mp (by decide))
    ((containsSub_eq_false_iff _ _).mp (by decide))
    (by decide)

/-- C1 counterexample: with the extension located, the target file
present and its content equal to the marker literal (which holds no old
literal), the run exits 0, while the claim's pattern-mismatch clause
demands exit code 1. -/
theorem exit_code_marker_overlap :
    ¬ old_line_v1 <:+: marker ∧ ¬ old_line_v2 <:+: marker ∧
    (main ⟨sampleFS, true, some marker, true⟩).exitCode = 0 :=
  ⟨(containsSub_eq_false_iff _ _).mp (by decide),
   (containsSub_eq_false_iff _ _).mp (by decide), rfl⟩

/-- C1 amended: exit code contract of a run. Exit 0 when the extension
or the file is missing, and when read content carries the marker;
exit 1 when read content carries neither marker nor any old literal,
when the read fails, and when a matched rule's write fails; exit 2
exactly when, with everything located and read and the marker absent, a
rule matched and the write succeeded. -/
theorem exit_codes (e : Env) :
    ((find_extension_path e.fs = none ∨ e.fileExists = false) →
      (main e).exitCode = 0) ∧
    (∀ c : List Char, e.readResult = some c → marker <:+: c →
      (main e).exitCode = 0) ∧
    (∀ (c p : List Char), find_extension_path e.fs = some p →
      e.fileExists = true → e.readResult = some c →
      ¬ marker <:+: c → ¬ old_line_v1 <:+: c → ¬ old_line_v2 <:+: c →
      (main e).exitCode = 1) ∧
    (∀ p : List Char, find_extension_path e.fs = some p →
      e.fileExists = true → e.readResult = none →
      (main e).exitCode = 1) ∧
    (∀ (c p : List Char), find_extension_path e.fs = some p →
      e.fileExists = true → e.readResult = some c →
      ¬ marker <:+: c → tryPatch c ≠ none → e.writeOk = false →
      (main e).exitCode = 1) ∧
    ((main e).exitCode = 2 ↔
      ∃ c p, find_extension_path e.fs = some p ∧
        e.fileExists = true ∧ e.readResult = some c ∧
        ¬ marker <:+: c ∧ tryPatch c ≠ none ∧ e.writeOk = true) := by
  obtain ⟨fs, fe, rr, w⟩ := e
  simp only
  refine ⟨?_, ?_, ?_, ?_, ?_, ?_⟩
  · rintro (h | h)
    · simp [main, h]
    · cases hfind : find_extension_path fs with
      | none => simp [main, hfind]
      | some q => subst h; simp [main, hfind]
  · intro c hr hm
    subst hr
    cases hfind : find_extension_path fs with
    | none => simp [main, hfind]
    | some q =>
      cases fe with
      | false => simp [main, hfind]
      | true =>
        rw [main_some hfind w c,
            if_pos ((containsSub_iff marker c).mpr hm)]
  · intro c p hfind hfe hr hm h1 h2
    subst hfe hr
    rw [main_some hfind w c,
        if_neg (fun hb => hm ((containsSub_iff _ _).mp hb)),
        tryPatch_of_none h1 h2]
  · intro p hfind hfe hr
    subst hfe hr
    simp [main, hfind]
  · intro c p hfind hfe hr hm htp hw
    subst hfe hr hw
    rw [main_some hfind false c,
        if_neg (fun hb => hm ((containsSub_iff _ _).mp hb))]
    cases htc : tryPatch c with
    | none => exact absurd htc htp
    | some n => rfl
  · constructor
    · intro h2
      cases hfind : find_extension_path fs with
      | none => simp [main, hfind] at h2
      | some q =>
        cases fe with
        | false => simp [main, hfind] at h2
        | true =>
          cases rr with
          | none => simp [main, hfind] at h2
          | some c =>
            rw [main_some hfind w c] at h2
            by_cases hm : containsSub marker c = true
            · rw [if_pos hm] at h2
              exact absurd h2 (by decide)
            · rw [if_neg hm] at h2
              cases htc : tryPatch c with
              | none =>
                rw [htc] at h2
                simp at h2
              | some n =>
                rw [htc] at h2
                cases w with
                | false => simp at h2
                | true =>
                  refine ⟨c, q, rfl, rfl, rfl, ?_, ?_, rfl⟩
                  · intro hmk
                    exact hm ((containsSub_iff marker c).mpr hmk)
                  · rw [htc]
                    simp
    · rintro ⟨c, p, hfind, hfe, hr, hm, htp, hw⟩
      subst hfe hr hw
      rw [main_some hfind true c,
          if_neg (fun hb => hm ((containsSub_iff _ _).mp hb))]
      cases htc : tryPatch c with
      | none => exact absurd htc htp
      | some n => rfl

/-- C1 witness: a run with the sample state, the v1 legacy content, and
a succeeding write exits with code 2. -/
theorem exit_codes_witness :
    (main ⟨sampleFS, true, some old_line_v1, true⟩).exitCode = 2 :=
  (exit_codes ⟨sampleFS, true, some old_line_v1, true⟩).2.2.2.2.2.mpr
    ⟨old_line_v1, sampleDirName, by decide, rfl, rfl,
     marker_not_infix_old_line_v1, by decide, rfl⟩

end Patcher
